import Mathlib

/-!
Shallow embedding of the cross-repository impact correlation engine
(`src/analyzers/cross-repo.ts` and the data model of `src/types/index.ts`).

The TypeScript class `CrossRepoAnalyzer` is embedded as plain functions taking
its two constructor fields (`relations`, `repoImpacts`) as arguments.  The
TypeScript field names `from`/`to` of `RelationConfig` are rendered as
`fromRepo`/`toRepo` because `from` is a Lean keyword.
-/

set_option maxHeartbeats 1000000

namespace ImpactAnalyzer

/-- ReasonType union of src/types/index.ts. -/
inductive ReasonType where
  | direct
  | dependency
  | schema
  | style
  | config
  | template
  | module
deriving DecidableEq

/-- Reason record of src/types/index.ts. -/
structure Reason where
  type : ReasonType
  source : String
  description : String
deriving DecidableEq

/-- ImpactItem record of src/types/index.ts. -/
structure ImpactItem where
  component : String
  repo : String
  file : String
  line : Option Nat
  reasons : List Reason
  testHints : Option (List String)
deriving DecidableEq

/-- The local RepoImpacts interface of src/analyzers/cross-repo.ts. -/
structure RepoImpacts where
  name : String
  impacts : List ImpactItem
deriving DecidableEq

/-- RelationType union of src/types/index.ts. -/
inductive RelationType where
  | graphqlSchema
  | sqs
  | sharedTypes
  | apiCall
  | npmPackage
deriving DecidableEq

/-- RelationConfig record of src/types/index.ts (`from`/`to` renamed, see header). -/
structure RelationConfig where
  fromRepo : String
  toRepo : String
  via : RelationType
  patterns : Option (List String)
deriving DecidableEq

/-- CrossRepoImpact record of src/types/index.ts. -/
structure CrossRepoImpact where
  sourceRepo : String
  sourceComponent : String
  targetRepo : String
  targetComponents : List String
  relation : RelationType
deriving DecidableEq

/-! ### JavaScript string primitives used by the analyzer -/

/-- Boolean prefix test on character lists. -/
def isPrefixCL : List Char → List Char → Bool
  | [], _ => true
  | _ :: _, [] => false
  | a :: as, b :: bs => a == b && isPrefixCL as bs

/-- Boolean substring test on character lists (`sub` occurs inside the second list). -/
def includesCL (sub : List Char) : List Char → Bool
  | [] => isPrefixCL sub []
  | c :: cs => isPrefixCL sub (c :: cs) || includesCL sub cs

/-- JS `String.prototype.includes`. -/
def strIncludes (s sub : String) : Bool := includesCL sub.data s.data

/-- JS `String.prototype.endsWith`. -/
def strEndsWith (s suffix : String) : Bool := isPrefixCL suffix.data.reverse s.data.reverse

/-- JS `String.prototype.toLowerCase` (ASCII-faithful, which is all the analyzer needs). -/
def strToLower (s : String) : String := ⟨s.data.map Char.toLower⟩

/-- JS `String.prototype.replace` with a global regex of a literal pattern:
left-to-right, non-overlapping, the replacement text is not rescanned.  The
`Nat` argument is a scan budget instantiated with the subject length, which
makes the recursion structural; it never runs out because every step consumes
at least one character. -/
def replaceCL (pat rep : List Char) : Nat → List Char → List Char
  | _, [] => []
  | 0, s => s
  | Nat.succ n, c :: cs =>
    if isPrefixCL pat (c :: cs) then
      rep ++ replaceCL pat rep n (List.drop (pat.length - 1) cs)
    else
      c :: replaceCL pat rep n cs

/-- JS `s.replace(/pat/g, rep)` for a literal, non-empty `pat`. -/
def jsReplaceAll (s pat rep : String) : String :=
  if pat.data.isEmpty then s else ⟨replaceCL pat.data rep.data s.data.length s.data⟩

/-! ### The glob pattern matcher (`matchesPattern`)

The source builds a regex string by three chained global replaces
(`** → .*`, then `* → [^/]*`, then `? → .`) and evaluates it with the
unanchored `RegExp.prototype.test`.  The regexes reachable from glob patterns
whose literal characters carry no other regex metacharacter are exactly
sequences of literal characters, `.` (any character) and `[^/]*`; `tokenize`
interprets the translated string into that fragment (an unescaped `.` coming
from the original glob is an any-character wildcard, exactly as JS RegExp
treats it), and `regexTest` is the unanchored existential match. -/

inductive RegexTok where
  | lit (c : Char)
  | anyc
  | star
deriving DecidableEq

/-- Read the translated regex string as a token sequence. -/
def tokenize : List Char → List RegexTok
  | [] => []
  | '[' :: '^' :: '/' :: ']' :: '*' :: rest => RegexTok.star :: tokenize rest
  | '.' :: rest => RegexTok.anyc :: tokenize rest
  | c :: rest => RegexTok.lit c :: tokenize rest

/-- Suffixes of a character list obtained by dropping a (possibly empty) run of
non-separator characters from the front: the candidate continuations of `[^/]*`. -/
def nonSlashSuffixes : List Char → List (List Char)
  | [] => [[]]
  | c :: cs => (c :: cs) :: (if c = '/' then [] else nonSlashSuffixes cs)

/-- Match a token sequence against a prefix of the subject (the rest of the
subject is unconstrained, matching the unanchored `test`). -/
def matchToks : List RegexTok → List Char → Bool
  | [], _ => true
  | RegexTok.lit _ :: _, [] => false
  | RegexTok.lit c :: ts, d :: ds => c == d && matchToks ts ds
  | RegexTok.anyc :: _, [] => false
  | RegexTok.anyc :: ts, _ :: ds => matchToks ts ds
  | RegexTok.star :: ts, ds => (nonSlashSuffixes ds).any fun rest => matchToks ts rest

/-- All suffixes of a character list: the candidate match start points. -/
def allSuffixes : List Char → List (List Char)
  | [] => [[]]
  | c :: cs => (c :: cs) :: allSuffixes cs

/-- JS `RegExp.prototype.test` (unanchored): the tokens match starting at some index. -/
def regexTest (ts : List RegexTok) (s : List Char) : Bool :=
  (allSuffixes s).any fun rest => matchToks ts rest

/-- The three chained replaces of `matchesPattern` in cross-repo.ts. -/
def globToRegex (pattern : String) : String :=
  jsReplaceAll (jsReplaceAll (jsReplaceAll pattern "**" ".*") "*" "[^/]*") "?" "."

/-- `matchesPattern` of cross-repo.ts. -/
def matchesPattern (filePath pattern : String) : Bool :=
  regexTest (tokenize (globToRegex pattern).data) filePath.data

/-! ### The five per-relation matchers -/

/-- Concat-map, modelling the nested push loops. -/
def flatMapL (f : α → List β) : List α → List β
  | [] => []
  | x :: xs => f x ++ flatMapL f xs

/-- JS `Array.from(new Set(xs))`: first-occurrence-order deduplication.
`dedupAux` carries the set of already-seen elements. -/
def dedupAux : List String → List String → List String
  | [], _ => []
  | x :: xs, seen => if x ∈ seen then dedupAux xs seen else x :: dedupAux xs (x :: seen)

/-- Spread of a Set built from a list. -/
def dedupStr (xs : List String) : List String := dedupAux xs []

/-- The schema-impact filter of analyzeGraphQLRelation. -/
def isSchemaImpact (i : ImpactItem) : Bool :=
  (i.reasons.any fun r => r.type == ReasonType.schema) ||
  strEndsWith i.file ".graphql" || strEndsWith i.file ".gql" ||
  strIncludes i.component "Query" || strIncludes i.component "Mutation"

/-- The built-in GraphQL consumer file test of findGraphQLConsumers. -/
def graphqlFileSignal (file : String) : Bool :=
  strEndsWith file ".graphql" || strEndsWith file ".gql" ||
  strIncludes file "query" || strIncludes file "mutation" ||
  strIncludes file "apollo" || strIncludes file "graphql"

/-- findGraphQLConsumers of cross-repo.ts: per impact, push on the built-in
signal, then push once per matching configured pattern; dedupe at the end. -/
def findGraphQLConsumers (repo : RepoImpacts) (patterns : Option (List String)) : List String :=
  dedupStr (flatMapL (fun impact =>
    (if graphqlFileSignal impact.file then [impact.component] else []) ++
    (match patterns with
     | some ps =>
        flatMapL (fun pattern =>
          if matchesPattern impact.file pattern then [impact.component] else []) ps
     | none => [])) repo.impacts)

/-- analyzeGraphQLRelation of cross-repo.ts. -/
def analyzeGraphQLRelation (sourceRepo targetRepo : RepoImpacts)
    (relation : RelationConfig) : List CrossRepoImpact :=
  let schemaImpacts := sourceRepo.impacts.filter isSchemaImpact
  if schemaImpacts.isEmpty then []
  else
    let targetComponents := findGraphQLConsumers targetRepo relation.patterns
    if targetComponents.isEmpty then []
    else schemaImpacts.map fun sourceImpact =>
      { sourceRepo := sourceRepo.name
        sourceComponent := sourceImpact.component
        targetRepo := targetRepo.name
        targetComponents := targetComponents
        relation := RelationType.graphqlSchema }

/-- The SQS filter shared by analyzeSQSRelation and findSQSComponents. -/
def isSQSImpact (i : ImpactItem) : Bool :=
  strIncludes i.component "SQS" ||
  (i.reasons.any fun r => strIncludes (strToLower r.description) "sqs")

/-- findSQSComponents of cross-repo.ts (note: no Set-deduplication here). -/
def findSQSComponents (repo : RepoImpacts) : List String :=
  (repo.impacts.filter isSQSImpact).map fun i => i.component

/-- analyzeSQSRelation of cross-repo.ts. -/
def analyzeSQSRelation (sourceRepo targetRepo : RepoImpacts)
    (_relation : RelationConfig) : List CrossRepoImpact :=
  let sqsImpacts := sourceRepo.impacts.filter isSQSImpact
  if sqsImpacts.isEmpty then []
  else
    let targetComponents := findSQSComponents targetRepo
    if targetComponents.isEmpty then []
    else sqsImpacts.map fun sourceImpact =>
      { sourceRepo := sourceRepo.name
        sourceComponent := sourceImpact.component
        targetRepo := targetRepo.name
        targetComponents := targetComponents
        relation := RelationType.sqs }

/-- The type-impact filter of analyzeSharedTypesRelation. -/
def isTypeImpact (i : ImpactItem) : Bool :=
  strIncludes i.file "types" || strIncludes i.file "interfaces" ||
  strIncludes i.file "models" ||
  strIncludes i.component "Type" || strIncludes i.component "Interface" ||
  strIncludes i.component "Struct"

/-- analyzeSharedTypesRelation of cross-repo.ts. -/
def analyzeSharedTypesRelation (sourceRepo targetRepo : RepoImpacts)
    (_relation : RelationConfig) : List CrossRepoImpact :=
  let typeImpacts := sourceRepo.impacts.filter isTypeImpact
  if typeImpacts.isEmpty then []
  else
    let targetComponents := targetRepo.impacts.map fun i => i.component
    if targetComponents.isEmpty then []
    else typeImpacts.map fun sourceImpact =>
      { sourceRepo := sourceRepo.name
        sourceComponent := sourceImpact.component
        targetRepo := targetRepo.name
        targetComponents := dedupStr targetComponents
        relation := RelationType.sharedTypes }

/-- The API-impact filter of analyzeAPICallRelation. -/
def isAPIImpact (i : ImpactItem) : Bool :=
  strIncludes i.component "API" || strIncludes i.component "Handler" ||
  strIncludes i.component "Controller" || strIncludes i.component "Endpoint" ||
  strIncludes i.file "controller" || strIncludes i.file "handler" ||
  strIncludes i.file "routes"

/-- The API consumer filter of analyzeAPICallRelation. -/
def isAPIConsumer (i : ImpactItem) : Bool :=
  strIncludes i.file "service" || strIncludes i.file "api" ||
  strIncludes i.file "http" || strIncludes i.file "fetch" ||
  strIncludes i.component "Service"

/-- analyzeAPICallRelation of cross-repo.ts. -/
def analyzeAPICallRelation (sourceRepo targetRepo : RepoImpacts)
    (_relation : RelationConfig) : List CrossRepoImpact :=
  let apiImpacts := sourceRepo.impacts.filter isAPIImpact
  if apiImpacts.isEmpty then []
  else
    let targetComponents := (targetRepo.impacts.filter isAPIConsumer).map fun i => i.component
    if targetComponents.isEmpty then []
    else apiImpacts.map fun sourceImpact =>
      { sourceRepo := sourceRepo.name
        sourceComponent := sourceImpact.component
        targetRepo := targetRepo.name
        targetComponents := dedupStr targetComponents
        relation := RelationType.apiCall }

/-- The dependency-impact filter of analyzeNpmPackageRelation. -/
def isDepImpact (i : ImpactItem) : Bool :=
  (i.reasons.any fun r => r.type == ReasonType.dependency) ||
  strIncludes i.file "package.json" || strEndsWith i.file "go.mod"

/-- analyzeNpmPackageRelation of cross-repo.ts. -/
def analyzeNpmPackageRelation (sourceRepo targetRepo : RepoImpacts)
    (_relation : RelationConfig) : List CrossRepoImpact :=
  let depImpacts := sourceRepo.impacts.filter isDepImpact
  if depImpacts.isEmpty then []
  else
    let targetComponents := targetRepo.impacts.map fun i => i.component
    if targetComponents.isEmpty then []
    else depImpacts.map fun sourceImpact =>
      { sourceRepo := sourceRepo.name
        sourceComponent := sourceImpact.component
        targetRepo := targetRepo.name
        targetComponents := dedupStr targetComponents
        relation := RelationType.npmPackage }

/-! ### Correlator and deduplication pass -/

/-- The string rendering of RelationType used in the template-literal key. -/
def relationName : RelationType → String
  | RelationType.graphqlSchema => "graphql-schema"
  | RelationType.sqs => "sqs"
  | RelationType.sharedTypes => "shared-types"
  | RelationType.apiCall => "api-call"
  | RelationType.npmPackage => "npm-package"

/-- The Map key of deduplicateCrossImpacts. -/
def crossKey (i : CrossRepoImpact) : String :=
  i.sourceRepo ++ "::" ++ i.sourceComponent ++ "::" ++ i.targetRepo ++ "::" ++
    relationName i.relation

/-- One step of deduplicateCrossImpacts: the ordered list models the insertion-order
Map; an existing entry with the same key is merged in place, otherwise a clone of
the record is appended. -/
def addImpact : List CrossRepoImpact → CrossRepoImpact → List CrossRepoImpact
  | [], i => [{ i with targetComponents := i.targetComponents }]
  | e :: es, i =>
    if crossKey e = crossKey i then
      { e with targetComponents := dedupStr (e.targetComponents ++ i.targetComponents) } :: es
    else
      e :: addImpact es i

/-- deduplicateCrossImpacts of cross-repo.ts (Map.values in insertion order). -/
def deduplicateCrossImpacts (impacts : List CrossRepoImpact) : List CrossRepoImpact :=
  impacts.foldl addImpact []

/-- The switch on relation.via in analyzeRelation. -/
def dispatchRelation (sourceRepo targetRepo : RepoImpacts)
    (relation : RelationConfig) : List CrossRepoImpact :=
  match relation.via with
  | RelationType.graphqlSchema => analyzeGraphQLRelation sourceRepo targetRepo relation
  | RelationType.sqs => analyzeSQSRelation sourceRepo targetRepo relation
  | RelationType.sharedTypes => analyzeSharedTypesRelation sourceRepo targetRepo relation
  | RelationType.apiCall => analyzeAPICallRelation sourceRepo targetRepo relation
  | RelationType.npmPackage => analyzeNpmPackageRelation sourceRepo targetRepo relation

/-- analyzeRelation of cross-repo.ts. -/
def analyzeRelation (repoImpacts : List RepoImpacts)
    (relation : RelationConfig) : List CrossRepoImpact :=
  match repoImpacts.find? (fun r => r.name == relation.fromRepo),
        repoImpacts.find? (fun r => r.name == relation.toRepo) with
  | some sourceRepo, some targetRepo => dispatchRelation sourceRepo targetRepo relation
  | _, _ => []

/-- analyze of cross-repo.ts. -/
def analyze (relations : List RelationConfig) (repoImpacts : List RepoImpacts) :
    List CrossRepoImpact :=
  deduplicateCrossImpacts (flatMapL (analyzeRelation repoImpacts) relations)

/-! ### Derived predicates naming the inline filters, for stating the properties -/

/-- The trigger filter each matcher applies to the source repo's impacts. -/
def triggerPred : RelationType → ImpactItem → Bool
  | RelationType.graphqlSchema => isSchemaImpact
  | RelationType.sqs => isSQSImpact
  | RelationType.sharedTypes => isTypeImpact
  | RelationType.apiCall => isAPIImpact
  | RelationType.npmPackage => isDepImpact

/-- Per relation kind: the target impact carries no consumer signal.  For the
kinds whose consumer set is all target components, every impact is a consumer,
so absence of a consumer signal is expressed as `false`. -/
def consumerAbsent (rel : RelationConfig) (i : ImpactItem) : Bool :=
  match rel.via with
  | RelationType.graphqlSchema =>
      !graphqlFileSignal i.file &&
        (rel.patterns.getD []).all fun p => !matchesPattern i.file p
  | RelationType.sqs => !isSQSImpact i
  | RelationType.sharedTypes => false
  | RelationType.apiCall => !isAPIConsumer i
  | RelationType.npmPackage => false

/-! ### Heap model of the mutating deduplication pass

The JS pass mutates: it clones the first record of each key into the Map and
then assigns into that clone's `targetComponents` when merging.  To state what
is (and is not) mutated, records live in an explicit store (`heap`, addressed
by index); the raw input records are the cells at the initial addresses, the
Map's values are the addresses in `outAddrs`. -/

/-- Placeholder cell for out-of-range reads (never reached on valid addresses). -/
def blankImpact : CrossRepoImpact :=
  { sourceRepo := "", sourceComponent := "", targetRepo := "",
    targetComponents := [], relation := RelationType.sqs }

/-- Read a heap cell. -/
def cellAt (h : List CrossRepoImpact) (a : Nat) : CrossRepoImpact :=
  h.getD a blankImpact

/-- The record store together with the Map of deduplicateCrossImpacts. -/
structure DedupState where
  heap : List CrossRepoImpact
  outAddrs : List Nat
deriving DecidableEq

/-- One loop iteration of deduplicateCrossImpacts on the heap model: on a key
hit, assign the merged set into the existing output cell; otherwise allocate a
fresh clone and record its address. -/
def dedupStep (st : DedupState) (a : Nat) : DedupState :=
  match st.outAddrs.find?
      (fun o => crossKey (cellAt st.heap o) == crossKey (cellAt st.heap a)) with
  | some o =>
      { heap := st.heap.set o
          { cellAt st.heap o with
            targetComponents :=
              dedupStr ((cellAt st.heap o).targetComponents ++
                (cellAt st.heap a).targetComponents) }
        outAddrs := st.outAddrs }
  | none =>
      { heap := st.heap ++
          [{ cellAt st.heap a with
             targetComponents := (cellAt st.heap a).targetComponents }]
        outAddrs := st.outAddrs ++ [st.heap.length] }

/-- Run the deduplication pass over the records at the given addresses. -/
def dedupRun (heap : List CrossRepoImpact) (addrs : List Nat) : DedupState :=
  addrs.foldl dedupStep { heap := heap, outAddrs := [] }

/-- Frame invariant of the heap model: the store only grows, the cells below
the initial length are untouched, and every Map value is a cell allocated by
the pass itself. -/
def HeapInv (heap0 : List CrossRepoImpact) (st : DedupState) : Prop :=
  heap0.length ≤ st.heap.length ∧
  (∀ k, k < heap0.length → cellAt st.heap k = cellAt heap0 k) ∧
  (∀ o ∈ st.outAddrs, heap0.length ≤ o ∧ o < st.heap.length)

/-- Invariant tying the Map contents after processing `ys` to the raw records
`ys`: the keys present are exactly the keys of `ys` (without duplicates), each
entry's target set is the union over the raw records sharing its key, and each
entry's other fields come from a raw record with its key. -/
def DedupInv (ys acc : List CrossRepoImpact) : Prop :=
  (∀ k : String, k ∈ acc.map crossKey ↔ k ∈ ys.map crossKey) ∧
  (acc.map crossKey).Nodup ∧
  (∀ r ∈ acc, ∀ c : String,
      c ∈ r.targetComponents ↔ ∃ y ∈ ys, crossKey y = crossKey r ∧ c ∈ y.targetComponents) ∧
  (∀ r ∈ acc, ∃ y ∈ ys, crossKey y = crossKey r ∧ y.sourceRepo = r.sourceRepo ∧
      y.sourceComponent = r.sourceComponent ∧ y.targetRepo = r.targetRepo ∧
      y.relation = r.relation)

/-! ### Basic lemmas about the list helpers -/

theorem flatMapL_append (f : α → List β) (l1 l2 : List α) :
    flatMapL f (l1 ++ l2) = flatMapL f l1 ++ flatMapL f l2 := by
  induction l1 with
  | nil => rfl
  | cons x xs ih => simp [flatMapL, ih]

theorem mem_flatMapL {f : α → List β} {x : β} :
    ∀ {l : List α}, x ∈ flatMapL f l ↔ ∃ a ∈ l, x ∈ f a
  | [] => by simp [flatMapL]
  | a :: l => by
    simp only [flatMapL, List.mem_append, mem_flatMapL, List.mem_cons]
    constructor
    · rintro (h | ⟨b, hb, hx⟩)
      · exact ⟨a, Or.inl rfl, h⟩
      · exact ⟨b, Or.inr hb, hx⟩
    · rintro ⟨b, rfl | hb, hx⟩
      · exact Or.inl hx
      · exact Or.inr ⟨b, hb, hx⟩

theorem flatMapL_eq_nil (f : α → List β) (l : List α) (h : ∀ a ∈ l, f a = []) :
    flatMapL f l = [] := by
  induction l with
  | nil => rfl
  | cons x xs ih =>
    simp only [flatMapL, h x (List.mem_cons_self x xs), List.nil_append]
    exact ih fun a ha => h a (List.mem_cons_of_mem x ha)

theorem filter_eq_nil_of (p : α → Bool) (l : List α) (h : ∀ a ∈ l, p a = false) :
    l.filter p = [] := by
  induction l with
  | nil => rfl
  | cons x xs ih =>
    simp only [List.filter, h x (List.mem_cons_self x xs)]
    exact ih fun a ha => h a (List.mem_cons_of_mem x ha)

theorem mem_dedupAux (x : String) (xs : List String) :
    ∀ seen, x ∈ dedupAux xs seen ↔ x ∈ xs ∧ x ∉ seen := by
  induction xs with
  | nil => intro seen; simp [dedupAux]
  | cons y ys ih =>
    intro seen
    by_cases hy : y ∈ seen
    · rw [dedupAux, if_pos hy, ih seen]
      simp only [List.mem_cons]
      constructor
      · rintro ⟨h1, h2⟩; exact ⟨Or.inr h1, h2⟩
      · rintro ⟨h1 | h1, h2⟩
        · subst h1; exact absurd hy h2
        · exact ⟨h1, h2⟩
    · rw [dedupAux, if_neg hy]
      simp only [List.mem_cons, ih (y :: seen), List.mem_cons]
      constructor
      · rintro (rfl | ⟨h1, h2⟩)
        · exact ⟨Or.inl rfl, hy⟩
        · exact ⟨Or.inr h1, fun hc => h2 (Or.inr hc)⟩
      · rintro ⟨h1 | h1, h2⟩
        · subst h1; exact Or.inl rfl
        · by_cases hxy : x = y
          · exact Or.inl hxy
          · exact Or.inr ⟨h1, fun hc => hc.elim hxy h2⟩

theorem mem_dedupStr (x : String) (xs : List String) : x ∈ dedupStr xs ↔ x ∈ xs := by
  rw [dedupStr, mem_dedupAux]
  simp

theorem nodup_dedupAux (xs : List String) : ∀ seen, (dedupAux xs seen).Nodup := by
  induction xs with
  | nil => intro seen; simp [dedupAux]
  | cons y ys ih =>
    intro seen
    by_cases hy : y ∈ seen
    · simpa [dedupAux, hy] using ih seen
    · rw [dedupAux, if_neg hy]
      refine List.nodup_cons.mpr ⟨fun hc => ?_, ih _⟩
      exact ((mem_dedupAux y ys (y :: seen)).mp hc).2 (List.mem_cons_self y seen)

theorem nodup_dedupStr (xs : List String) : (dedupStr xs).Nodup :=
  nodup_dedupAux xs []

theorem dedupStr_ne_nil (x : String) (xs : List String) : dedupStr (x :: xs) ≠ [] := by
  simp [dedupStr, dedupAux]

theorem mem_dedupStr_append (c : String) (a b : List String) :
    c ∈ dedupStr (a ++ b) ↔ c ∈ a ∨ c ∈ b := by
  rw [mem_dedupStr, List.mem_append]

theorem dedupAux_congr_seen :
    ∀ (xs s1 s2 : List String), (∀ a : String, a ∈ s1 ↔ a ∈ s2) →
      dedupAux xs s1 = dedupAux xs s2
  | [], _, _, _ => rfl
  | x :: xs, s1, s2, h => by
    by_cases hx : x ∈ s1
    · rw [dedupAux, if_pos hx, dedupAux, if_pos ((h x).mp hx)]
      exact dedupAux_congr_seen xs s1 s2 h
    · rw [dedupAux, if_neg hx, dedupAux, if_neg (fun hc => hx ((h x).mpr hc))]
      refine congrArg (x :: ·) (dedupAux_congr_seen xs (x :: s1) (x :: s2) ?_)
      intro a
      simp only [List.mem_cons, h a]

/-! ### Lemmas about the merge step -/

theorem crossKey_update (e : CrossRepoImpact) (t : List String) :
    crossKey { e with targetComponents := t } = crossKey e := rfl

theorem addImpact_of_not_mem :
    ∀ (acc : List CrossRepoImpact) (i : CrossRepoImpact),
      crossKey i ∉ acc.map crossKey → addImpact acc i = acc ++ [i]
  | [], _, _ => rfl
  | e :: es, i, h => by
    have he : ¬crossKey e = crossKey i := fun hc =>
      h (by rw [List.map_cons]; exact hc ▸ List.mem_cons_self _ _)
    rw [addImpact, if_neg he,
      addImpact_of_not_mem es i (fun hc => h (List.mem_cons_of_mem _ hc)),
      List.cons_append]

theorem addImpact_keys (acc : List CrossRepoImpact) (i : CrossRepoImpact) :
    (addImpact acc i).map crossKey =
      if crossKey i ∈ acc.map crossKey then acc.map crossKey
      else acc.map crossKey ++ [crossKey i] := by
  induction acc with
  | nil => simp [addImpact]
  | cons e es ih =>
    by_cases he : crossKey e = crossKey i
    · rw [addImpact, if_pos he, List.map_cons, List.map_cons, crossKey_update,
        if_pos (he ▸ List.mem_cons_self _ _)]
    · rw [addImpact, if_neg he, List.map_cons, List.map_cons, ih]
      by_cases h2 : crossKey i ∈ es.map crossKey
      · rw [if_pos h2, if_pos (List.mem_cons_of_mem _ h2)]
      · rw [if_neg h2, if_neg (by
          rw [List.mem_cons]
          rintro (hc | hc)
          · exact he hc.symm
          · exact h2 hc), List.cons_append]

theorem addImpact_decomp (acc : List CrossRepoImpact) (i : CrossRepoImpact)
    (h : crossKey i ∈ acc.map crossKey) :
    ∃ as e bs, acc = as ++ e :: bs ∧ crossKey e = crossKey i ∧
      crossKey i ∉ as.map crossKey ∧
      addImpact acc i =
        as ++ { e with
          targetComponents := dedupStr (e.targetComponents ++ i.targetComponents) } :: bs := by
  induction acc with
  | nil => simp at h
  | cons e es ih =>
    by_cases he : crossKey e = crossKey i
    · exact ⟨[], e, es, by simp, he, by simp, by rw [addImpact, if_pos he]; rfl⟩
    · have h2 : crossKey i ∈ es.map crossKey := by
        rcases List.mem_cons.mp (by simpa only [List.map_cons] using h) with hc | hc
        · exact absurd hc.symm he
        · exact hc
      obtain ⟨as, e2, bs, hdec, hk, hnotin, heq⟩ := ih h2
      refine ⟨e :: as, e2, bs, by rw [hdec, List.cons_append], hk, ?_, ?_⟩
      · rw [List.map_cons, List.mem_cons]
        rintro (hc | hc)
        · exact he hc.symm
        · exact hnotin hc
      · rw [addImpact, if_neg he, heq, List.cons_append]

theorem foldl_addImpact_keys :
    ∀ (xs acc : List CrossRepoImpact),
      ((xs.foldl addImpact acc).map crossKey) =
        acc.map crossKey ++ dedupAux (xs.map crossKey) (acc.map crossKey)
  | [], acc => by simp [dedupAux]
  | x :: xs, acc => by
    rw [List.foldl_cons, foldl_addImpact_keys xs (addImpact acc x), addImpact_keys,
      List.map_cons, dedupAux]
    by_cases h : crossKey x ∈ acc.map crossKey
    · rw [if_pos h, if_pos h]
    · rw [if_neg h, if_neg h,
        dedupAux_congr_seen (xs.map crossKey) (acc.map crossKey ++ [crossKey x])
          (crossKey x :: acc.map crossKey) (by intro a; simp [or_comm]),
        List.append_assoc, List.singleton_append]

theorem dedupe_keys (xs : List CrossRepoImpact) :
    (deduplicateCrossImpacts xs).map crossKey = dedupStr (xs.map crossKey) := by
  simpa [deduplicateCrossImpacts, dedupStr] using foldl_addImpact_keys xs []

theorem foldl_addImpact_of_disjoint :
    ∀ (xs acc : List CrossRepoImpact),
      (∀ x ∈ xs, crossKey x ∉ acc.map crossKey) → (xs.map crossKey).Nodup →
      xs.foldl addImpact acc = acc ++ xs
  | [], acc, _, _ => by simp
  | x :: xs, acc, hdis, hnd => by
    rw [List.foldl_cons, addImpact_of_not_mem acc x (hdis x (List.mem_cons_self _ _)),
      foldl_addImpact_of_disjoint xs (acc ++ [x]) ?_ ?_, List.append_assoc,
      List.singleton_append]
    · intro y hy
      rw [List.map_append, List.mem_append]
      rintro (hc | hc)
      · exact hdis y (List.mem_cons_of_mem _ hy) hc
      · rcases List.mem_singleton.mp hc with hc
        have := (List.nodup_cons.mp (by simpa only [List.map_cons] using hnd)).1
        exact this (hc ▸ List.mem_map_of_mem crossKey hy)
    · exact (List.nodup_cons.mp (by simpa only [List.map_cons] using hnd)).2

theorem dedupe_of_nodup_keys (xs : List CrossRepoImpact)
    (h : (xs.map crossKey).Nodup) : deduplicateCrossImpacts xs = xs := by
  rw [deduplicateCrossImpacts, foldl_addImpact_of_disjoint xs [] (by simp) h,
    List.nil_append]

/-! ### The Map invariant of the deduplication pass -/

theorem dedupInv_step (ys acc : List CrossRepoImpact) (i : CrossRepoImpact)
    (h : DedupInv ys acc) : DedupInv (ys ++ [i]) (addImpact acc i) := by
  obtain ⟨hks, hnd, hcomp, hfld⟩ := h
  have hysmap : (ys ++ [i]).map crossKey = ys.map crossKey ++ [crossKey i] := by simp
  by_cases hmem : crossKey i ∈ acc.map crossKey
  · obtain ⟨as, e, bs, hacc, hke, hnotin, heq⟩ := addImpact_decomp acc i hmem
    subst hacc
    rw [heq]
    have hmapeq :
        (as ++ { e with
          targetComponents :=
            dedupStr (e.targetComponents ++ i.targetComponents) } :: bs).map crossKey =
          (as ++ e :: bs).map crossKey := by
      simp [crossKey_update]
    have has : ∀ r ∈ as, crossKey r ≠ crossKey i := fun r hr hc =>
      hnotin (hc ▸ List.mem_map_of_mem crossKey hr)
    have hbs : ∀ r ∈ bs, crossKey r ≠ crossKey i := by
      intro r hr hc
      have hnd2 : (List.map crossKey as ++ crossKey e :: List.map crossKey bs).Nodup := by
        simpa using hnd
      have h3 : (crossKey e :: List.map crossKey bs).Nodup :=
        hnd2.sublist (List.sublist_append_right _ _)
      apply (List.nodup_cons.mp h3).1
      rw [hke, ← hc]
      exact List.mem_map_of_mem crossKey hr
    have he_mem : e ∈ as ++ e :: bs :=
      List.mem_append_right _ (List.mem_cons_self _ _)
    have hextend : ∀ r : CrossRepoImpact, r ∈ as ++ e :: bs → crossKey r ≠ crossKey i →
        ∀ c : String, (c ∈ r.targetComponents ↔
          ∃ y ∈ ys ++ [i], crossKey y = crossKey r ∧ c ∈ y.targetComponents) := by
      intro r hr hrk c
      rw [hcomp r hr c]
      constructor
      · rintro ⟨y, hy, hk, hc⟩
        exact ⟨y, List.mem_append_left _ hy, hk, hc⟩
      · rintro ⟨y, hy, hk, hc⟩
        rcases List.mem_append.mp hy with hy | hy
        · exact ⟨y, hy, hk, hc⟩
        · rcases List.mem_singleton.mp hy with rfl
          exact absurd hk.symm hrk
    refine ⟨?_, ?_, ?_, ?_⟩
    · intro k
      rw [hmapeq, hysmap, List.mem_append, List.mem_singleton]
      constructor
      · intro hk
        exact Or.inl ((hks k).mp hk)
      · rintro (hk | rfl)
        · exact (hks k).mpr hk
        · exact hmem
    · rw [hmapeq]
      exact hnd
    · intro r hr c
      rcases List.mem_append.mp hr with hr | hr
      · exact hextend r (List.mem_append_left _ hr) (has r hr) c
      · rcases List.mem_cons.mp hr with rfl | hr
        · have hee := hcomp e he_mem c
          show c ∈ dedupStr (e.targetComponents ++ i.targetComponents) ↔ _
          rw [mem_dedupStr_append]
          constructor
          · rintro (hc | hc)
            · obtain ⟨y, hy, hk, hcy⟩ := hee.mp hc
              exact ⟨y, List.mem_append_left _ hy, hk, hcy⟩
            · exact ⟨i, List.mem_append_right _ (List.mem_singleton_self _), hke.symm, hc⟩
          · rintro ⟨y, hy, hk, hcy⟩
            rcases List.mem_append.mp hy with hy | hy
            · exact Or.inl (hee.mpr ⟨y, hy, hk, hcy⟩)
            · rcases List.mem_singleton.mp hy with rfl
              exact Or.inr hcy
        · exact hextend r (List.mem_append_right _ (List.mem_cons_of_mem _ hr)) (hbs r hr) c
    · intro r hr
      rcases List.mem_append.mp hr with hr | hr
      · obtain ⟨y, hy, hrest⟩ := hfld r (List.mem_append_left _ hr)
        exact ⟨y, List.mem_append_left _ hy, hrest⟩
      · rcases List.mem_cons.mp hr with rfl | hr
        · obtain ⟨y, hy, hk, h1, h2, h3, h4⟩ := hfld e he_mem
          exact ⟨y, List.mem_append_left _ hy, hk, h1, h2, h3, h4⟩
        · obtain ⟨y, hy, hrest⟩ :=
            hfld r (List.mem_append_right _ (List.mem_cons_of_mem _ hr))
          exact ⟨y, List.mem_append_left _ hy, hrest⟩
  · rw [addImpact_of_not_mem acc i hmem]
    have hysno : ∀ y ∈ ys, crossKey y ≠ crossKey i := fun y hy hk =>
      hmem ((hks (crossKey i)).mpr (hk ▸ List.mem_map_of_mem crossKey hy))
    refine ⟨?_, ?_, ?_, ?_⟩
    · intro k
      rw [hysmap, List.map_append, List.mem_append, List.mem_append]
      simp only [List.map_cons, List.map_nil, List.mem_singleton]
      constructor
      · rintro (hk | rfl)
        · exact Or.inl ((hks k).mp hk)
        · exact Or.inr rfl
      · rintro (hk | rfl)
        · exact Or.inl ((hks k).mpr hk)
        · exact Or.inr rfl
    · rw [List.map_append]
      refine List.nodup_append.mpr ⟨hnd, by simp, ?_⟩
      intro a ha hb
      simp only [List.map_cons, List.map_nil, List.mem_singleton] at hb
      exact hmem (hb ▸ ha)
    · intro r hr c
      rcases List.mem_append.mp hr with hr | hr
      · have hrk : crossKey r ≠ crossKey i := fun hc =>
          hmem (hc ▸ List.mem_map_of_mem crossKey hr)
        rw [hcomp r hr c]
        constructor
        · rintro ⟨y, hy, hk, hc⟩
          exact ⟨y, List.mem_append_left _ hy, hk, hc⟩
        · rintro ⟨y, hy, hk, hc⟩
          rcases List.mem_append.mp hy with hy | hy
          · exact ⟨y, hy, hk, hc⟩
          · rcases List.mem_singleton.mp hy with rfl
            exact absurd hk.symm hrk
      · rcases List.mem_singleton.mp hr with rfl
        constructor
        · intro hc
          exact ⟨r, List.mem_append_right _ (List.mem_singleton_self _), rfl, hc⟩
        · rintro ⟨y, hy, hk, hc⟩
          rcases List.mem_append.mp hy with hy | hy
          · exact absurd hk (hysno y hy)
          · rcases List.mem_singleton.mp hy with rfl
            exact hc
    · intro r hr
      rcases List.mem_append.mp hr with hr | hr
      · obtain ⟨y, hy, hrest⟩ := hfld r hr
        exact ⟨y, List.mem_append_left _ hy, hrest⟩
      · rcases List.mem_singleton.mp hr with rfl
        exact ⟨r, List.mem_append_right _ (List.mem_singleton_self _), rfl, rfl, rfl, rfl, rfl⟩

theorem dedupInv_foldl :
    ∀ (xs ys acc : List CrossRepoImpact),
      DedupInv ys acc → DedupInv (ys ++ xs) (xs.foldl addImpact acc)
  | [], _, _, h => by simpa using h
  | x :: xs, ys, acc, h => by
    have h2 := dedupInv_foldl xs (ys ++ [x]) (addImpact acc x) (dedupInv_step ys acc x h)
    rw [List.foldl_cons]
    simpa [List.append_assoc] using h2

theorem dedupe_inv (xs : List CrossRepoImpact) :
    DedupInv xs (deduplicateCrossImpacts xs) := by
  have h0 : DedupInv [] [] := ⟨by simp, by simp, by simp, by simp⟩
  simpa [deduplicateCrossImpacts] using dedupInv_foldl xs [] [] h0

/-! ### Emptiness and nonemptiness helpers -/

theorem ne_nil_of_not_isEmpty {α : Type} (l : List α) (h : ¬l.isEmpty = true) : l ≠ [] := by
  cases l
  · simp [List.isEmpty] at h
  · simp

theorem dedupStr_ne_nil_of_not_isEmpty (l : List String) (h : ¬l.isEmpty = true) :
    dedupStr l ≠ [] := by
  cases l
  · simp [List.isEmpty] at h
  · exact dedupStr_ne_nil _ _

theorem targets_ne_nil_graphql (s t : RepoImpacts) (rel : RelationConfig) :
    ∀ r ∈ analyzeGraphQLRelation s t rel, r.targetComponents ≠ [] := by
  intro r hr
  simp only [analyzeGraphQLRelation] at hr
  split at hr
  · simp at hr
  · split at hr
    · simp at hr
    · rename_i htc
      obtain ⟨si, hsi, rfl⟩ := List.mem_map.mp hr
      exact ne_nil_of_not_isEmpty _ htc

theorem targets_ne_nil_sqs (s t : RepoImpacts) (rel : RelationConfig) :
    ∀ r ∈ analyzeSQSRelation s t rel, r.targetComponents ≠ [] := by
  intro r hr
  simp only [analyzeSQSRelation] at hr
  split at hr
  · simp at hr
  · split at hr
    · simp at hr
    · rename_i htc
      obtain ⟨si, hsi, rfl⟩ := List.mem_map.mp hr
      exact ne_nil_of_not_isEmpty _ htc

theorem targets_ne_nil_sharedTypes (s t : RepoImpacts) (rel : RelationConfig) :
    ∀ r ∈ analyzeSharedTypesRelation s t rel, r.targetComponents ≠ [] := by
  intro r hr
  simp only [analyzeSharedTypesRelation] at hr
  split at hr
  · simp at hr
  · split at hr
    · simp at hr
    · rename_i htc
      obtain ⟨si, hsi, rfl⟩ := List.mem_map.mp hr
      exact dedupStr_ne_nil_of_not_isEmpty _ htc

theorem targets_ne_nil_apiCall (s t : RepoImpacts) (rel : RelationConfig) :
    ∀ r ∈ analyzeAPICallRelation s t rel, r.targetComponents ≠ [] := by
  intro r hr
  simp only [analyzeAPICallRelation] at hr
  split at hr
  · simp at hr
  · split at hr
    · simp at hr
    · rename_i htc
      obtain ⟨si, hsi, rfl⟩ := List.mem_map.mp hr
      exact dedupStr_ne_nil_of_not_isEmpty _ htc

theorem targets_ne_nil_npm (s t : RepoImpacts) (rel : RelationConfig) :
    ∀ r ∈ analyzeNpmPackageRelation s t rel, r.targetComponents ≠ [] := by
  intro r hr
  simp only [analyzeNpmPackageRelation] at hr
  split at hr
  · simp at hr
  · split at hr
    · simp at hr
    · rename_i htc
      obtain ⟨si, hsi, rfl⟩ := List.mem_map.mp hr
      exact dedupStr_ne_nil_of_not_isEmpty _ htc

theorem targets_ne_nil_dispatch (s t : RepoImpacts) (rel : RelationConfig) :
    ∀ r ∈ dispatchRelation s t rel, r.targetComponents ≠ [] := by
  obtain ⟨rfrom, rto, via, ps⟩ := rel
  cases via
  · exact targets_ne_nil_graphql s t ⟨rfrom, rto, RelationType.graphqlSchema, ps⟩
  · exact targets_ne_nil_sqs s t ⟨rfrom, rto, RelationType.sqs, ps⟩
  · exact targets_ne_nil_sharedTypes s t ⟨rfrom, rto, RelationType.sharedTypes, ps⟩
  · exact targets_ne_nil_apiCall s t ⟨rfrom, rto, RelationType.apiCall, ps⟩
  · exact targets_ne_nil_npm s t ⟨rfrom, rto, RelationType.npmPackage, ps⟩

theorem targets_ne_nil_analyzeRelation (repos : List RepoImpacts) (rel : RelationConfig) :
    ∀ r ∈ analyzeRelation repos rel, r.targetComponents ≠ [] := by
  intro r hr
  unfold analyzeRelation at hr
  cases hf : repos.find? (fun x => x.name == rel.fromRepo) with
  | none =>
    cases ht : repos.find? (fun x => x.name == rel.toRepo) with
    | none => rw [hf, ht] at hr; simp at hr
    | some t => rw [hf, ht] at hr; simp at hr
  | some s =>
    cases ht : repos.find? (fun x => x.name == rel.toRepo) with
    | none => rw [hf, ht] at hr; simp at hr
    | some t =>
      rw [hf, ht] at hr
      exact targets_ne_nil_dispatch s t rel r hr

/-! ### Heap model lemmas -/

theorem getD_set_ne {α : Type} :
    ∀ (l : List α) (i j : Nat) (v d : α), i ≠ j → (l.set i v).getD j d = l.getD j d
  | [], _, _, _, _, _ => rfl
  | _ :: _, 0, 0, _, _, h => absurd rfl h
  | _ :: _, 0, _ + 1, _, _, _ => rfl
  | _ :: _, _ + 1, 0, _, _, _ => rfl
  | _ :: l, i + 1, j + 1, v, d, h =>
    getD_set_ne l i j v d fun hc => h (congrArg Nat.succ hc)

theorem getD_append_left {α : Type} :
    ∀ (l1 l2 : List α) (k : Nat) (d : α), k < l1.length →
      (l1 ++ l2).getD k d = l1.getD k d
  | [], _, _, _, h => absurd h (by simp)
  | _ :: _, _, 0, _, _ => rfl
  | _ :: l1, l2, k + 1, d, h => getD_append_left l1 l2 k d (Nat.lt_of_succ_lt_succ h)

theorem heapInv_step (heap0 : List CrossRepoImpact) (st : DedupState) (a : Nat)
    (h : HeapInv heap0 st) : HeapInv heap0 (dedupStep st a) := by
  obtain ⟨hlen, hpre, hout⟩ := h
  unfold dedupStep
  split
  · rename_i o hf
    have ho := hout o (List.mem_of_find?_eq_some hf)
    refine ⟨?_, ?_, ?_⟩
    · rw [List.length_set]
      exact hlen
    · intro k hk
      rw [cellAt, getD_set_ne st.heap o k _ _
        (fun hc => absurd (hc ▸ ho.1) (Nat.not_le_of_lt hk))]
      exact hpre k hk
    · intro x hx
      rw [List.length_set]
      exact hout x hx
  · refine ⟨?_, ?_, ?_⟩
    · refine Nat.le_trans hlen ?_
      simp
    · intro k hk
      rw [cellAt, getD_append_left st.heap _ k _ (Nat.lt_of_lt_of_le hk hlen)]
      exact hpre k hk
    · intro x hx
      rcases List.mem_append.mp hx with hx | hx
      · refine ⟨(hout x hx).1, Nat.lt_of_lt_of_le (hout x hx).2 ?_⟩
        simp
      · rcases List.mem_singleton.mp hx with rfl
        exact ⟨hlen, by simp⟩

theorem heapInv_foldl (heap0 : List CrossRepoImpact) :
    ∀ (addrs : List Nat) (st : DedupState), HeapInv heap0 st →
      HeapInv heap0 (addrs.foldl dedupStep st)
  | [], _, h => h
  | a :: addrs, st, h =>
    heapInv_foldl heap0 addrs (dedupStep st a) (heapInv_step heap0 st a h)

/-! ### Claim theorems -/

/-- C1 counterexample: the dedup pass groups by the `::`-joined key string, so two
records with distinct `(sourceRepo, sourceComponent, targetRepo, relation)` tuples
whose joined keys coincide are merged: on this input the tuple
`("x", ":y", "t", sqs)` occurs in the input yet no output record carries it,
refuting "exactly one output record per distinct tuple occurring in the input". -/
theorem C1_counterexample :
    deduplicateCrossImpacts
        [⟨"x:", "y", "t", ["A"], RelationType.sqs⟩,
         ⟨"x", ":y", "t", ["B"], RelationType.sqs⟩] =
      [⟨"x:", "y", "t", ["A", "B"], RelationType.sqs⟩] ∧
    (deduplicateCrossImpacts
        [⟨"x:", "y", "t", ["A"], RelationType.sqs⟩,
         ⟨"x", ":y", "t", ["B"], RelationType.sqs⟩]).filter
        (fun r => r.sourceRepo == "x" && r.sourceComponent == ":y") = [] := by
  decide

/-- C1 (amended): the dedup pass yields, for every distinct joined key
`sourceRepo::sourceComponent::targetRepo::relation` occurring in the input,
exactly one output record, in first-seen key order; its targetComponents is
(as a set) the union of the targetComponents of all input records sharing the
key, and its remaining fields are those of an input record with that key. -/
theorem C1_dedupe_key_grouping (xs : List CrossRepoImpact) :
    (deduplicateCrossImpacts xs).map crossKey = dedupStr (xs.map crossKey) ∧
    (∀ r ∈ deduplicateCrossImpacts xs, ∀ c : String,
        c ∈ r.targetComponents ↔
          ∃ y ∈ xs, crossKey y = crossKey r ∧ c ∈ y.targetComponents) ∧
    (∀ r ∈ deduplicateCrossImpacts xs, ∃ y ∈ xs, crossKey y = crossKey r ∧
        y.sourceRepo = r.sourceRepo ∧ y.sourceComponent = r.sourceComponent ∧
        y.targetRepo = r.targetRepo ∧ y.relation = r.relation) := by
  obtain ⟨-, -, hcomp, hfld⟩ := dedupe_inv xs
  exact ⟨dedupe_keys xs, hcomp, hfld⟩

/-- C1 witness: the union clause evaluated on a concrete merged record. -/
theorem C1_dedupe_key_grouping_witness :
    ("B" ∈ (⟨"s", "c", "t", ["A", "B"], RelationType.sqs⟩ :
        CrossRepoImpact).targetComponents ↔
      ∃ y ∈ [(⟨"s", "c", "t", ["A"], RelationType.sqs⟩ : CrossRepoImpact),
             ⟨"s", "c", "t", ["B"], RelationType.sqs⟩],
        crossKey y = crossKey (⟨"s", "c", "t", ["A", "B"], RelationType.sqs⟩ :
          CrossRepoImpact) ∧ "B" ∈ y.targetComponents) :=
  (C1_dedupe_key_grouping
      [⟨"s", "c", "t", ["A"], RelationType.sqs⟩,
       ⟨"s", "c", "t", ["B"], RelationType.sqs⟩]).2.1
    ⟨"s", "c", "t", ["A", "B"], RelationType.sqs⟩ (by decide) "B"

/-- C2 counterexample: the claim asserts that pattern `*.graphql` does not match
the nested path `src/queries/getUsers.graphql`; because the translated regex is
tested unanchored, it does match. -/
theorem C2_counterexample :
    matchesPattern "src/queries/getUsers.graphql" "*.graphql" = true := by
  decide

/-- C2 (amended): the chained replacements rewrite the `*` inside the `.*`
inserted for `**`, so `**` effectively translates to `.[^/]*` (one arbitrary
character followed by a separator-free run) and does not span several
separators; `*` translates to `[^/]*` and `?` (like an unescaped `.`) to an
any-character wildcard; the regex is tested unanchored, so both `**/*.graphql`
and plain `*.graphql` match `src/queries/getUsers.graphql`. -/
theorem C2_glob_actual_semantics :
    tokenize (globToRegex "**").data = [RegexTok.anyc, RegexTok.star] ∧
    matchesPattern "src/queries/getUsers.graphql" "**/*.graphql" = true ∧
    matchesPattern "src/queries/getUsers.graphql" "*.graphql" = true ∧
    matchesPattern "a/c/db" "a**b" = false ∧
    matchesPattern "abc" "a?c" = true ∧
    matchesPattern "ac" "a?c" = false ∧
    matchesPattern "a/c" "a?c" = true := by
  decide

/-- C3: for every relation and every source/target pair, a matcher contributes
no record when no source impact satisfies its trigger predicate, and none when
no target impact carries a consumer signal (for graphql-schema: neither the
built-in file signal nor a configured pattern match; for the all-components
kinds this means an empty target impact list). -/
theorem C3_no_signal_empty (s t : RepoImpacts) (rel : RelationConfig) :
    ((∀ i ∈ s.impacts, triggerPred rel.via i = false) → dispatchRelation s t rel = []) ∧
    ((∀ i ∈ t.impacts, consumerAbsent rel i = true) → dispatchRelation s t rel = []) := by
  obtain ⟨rfrom, rto, via, ps⟩ := rel
  cases via
  case graphqlSchema =>
    constructor
    · intro h
      have hfil : s.impacts.filter isSchemaImpact = [] :=
        filter_eq_nil_of _ _ (by simpa [triggerPred] using h)
      simp [dispatchRelation, analyzeGraphQLRelation, hfil]
    · intro h
      have hcons : findGraphQLConsumers t ps = [] := by
        rw [List.eq_nil_iff_forall_not_mem]
        intro c hc
        unfold findGraphQLConsumers at hc
        rw [mem_dedupStr, mem_flatMapL] at hc
        obtain ⟨i, hi, hci⟩ := hc
        have h2 := h i hi
        simp only [consumerAbsent, Bool.and_eq_true, Bool.not_eq_true',
          List.all_eq_true] at h2
        obtain ⟨hsig, hpat⟩ := h2
        rcases List.mem_append.mp hci with hc1 | hc2
        · rw [hsig] at hc1
          simp at hc1
        · cases ps with
          | none => simp at hc2
          | some pl =>
            rw [mem_flatMapL] at hc2
            obtain ⟨p, hp, hcp⟩ := hc2
            have hmp := hpat p (by simpa using hp)
            rw [hmp] at hcp
            simp at hcp
      simp [dispatchRelation, analyzeGraphQLRelation, hcons]
  case sqs =>
    constructor
    · intro h
      have hfil : s.impacts.filter isSQSImpact = [] :=
        filter_eq_nil_of _ _ (by simpa [triggerPred] using h)
      simp [dispatchRelation, analyzeSQSRelation, hfil]
    · intro h
      have hfil : t.impacts.filter isSQSImpact = [] :=
        filter_eq_nil_of _ _ (by
          intro a ha
          have := h a ha
          simpa [consumerAbsent, Bool.not_eq_true'] using this)
      simp [dispatchRelation, analyzeSQSRelation, findSQSComponents, hfil]
  case sharedTypes =>
    constructor
    · intro h
      have hfil : s.impacts.filter isTypeImpact = [] :=
        filter_eq_nil_of _ _ (by simpa [triggerPred] using h)
      simp [dispatchRelation, analyzeSharedTypesRelation, hfil]
    · intro h
      have himp : t.impacts = [] := by
        cases hcase : t.impacts with
        | nil => rfl
        | cons a l =>
          have := h a (by rw [hcase]; exact List.mem_cons_self a l)
          simp [consumerAbsent] at this
      simp [dispatchRelation, analyzeSharedTypesRelation, himp]
  case apiCall =>
    constructor
    · intro h
      have hfil : s.impacts.filter isAPIImpact = [] :=
        filter_eq_nil_of _ _ (by simpa [triggerPred] using h)
      simp [dispatchRelation, analyzeAPICallRelation, hfil]
    · intro h
      have hfil : t.impacts.filter isAPIConsumer = [] :=
        filter_eq_nil_of _ _ (by
          intro a ha
          have := h a ha
          simpa [consumerAbsent, Bool.not_eq_true'] using this)
      simp [dispatchRelation, analyzeAPICallRelation, hfil]
  case npmPackage =>
    constructor
    · intro h
      have hfil : s.impacts.filter isDepImpact = [] :=
        filter_eq_nil_of _ _ (by simpa [triggerPred] using h)
      simp [dispatchRelation, analyzeNpmPackageRelation, hfil]
    · intro h
      have himp : t.impacts = [] := by
        cases hcase : t.impacts with
        | nil => rfl
        | cons a l =>
          have := h a (by rw [hcase]; exact List.mem_cons_self a l)
          simp [consumerAbsent] at this
      simp [dispatchRelation, analyzeNpmPackageRelation, himp]

/-- C3 witness: a graphql-schema relation with no trigger and an sqs relation
with a trigger but no consumer both contribute no record. -/
theorem C3_no_signal_empty_witness :
    dispatchRelation
        ⟨"api", [⟨"UserService", "api", "src/services/user.ts", none,
          [⟨ReasonType.direct, "user.ts", "Service modified"⟩], none⟩]⟩
        ⟨"frontend", [⟨"UserList", "frontend", "src/queries/getUsers.graphql", none,
          [], none⟩]⟩
        ⟨"api", "frontend", RelationType.graphqlSchema, none⟩ = [] ∧
    dispatchRelation
        ⟨"lambdas", [⟨"SQS Handler: email", "lambdas", "email.go", none, [], none⟩]⟩
        ⟨"api", [⟨"UserHandler", "api", "src/users.ts", none,
          [⟨ReasonType.direct, "users.ts", "Handler modified"⟩], none⟩]⟩
        ⟨"lambdas", "api", RelationType.sqs, none⟩ = [] :=
  ⟨(C3_no_signal_empty _ _ _).1 (by decide), (C3_no_signal_empty _ _ _).2 (by decide)⟩

/-- C4 exhibit: the sqs matcher does not deduplicate its consumer list and the
merge pass copies a single-record key verbatim, so the final analyze output can
carry a duplicated target component, contradicting the documented set
semantics of targetComponents. -/
theorem C4_sqs_duplicate_targets :
    analyze [⟨"lambdas", "api", RelationType.sqs, none⟩]
      [⟨"lambdas", [⟨"SQSProducer", "lambdas", "producer.go", none, [], none⟩]⟩,
       ⟨"api", [⟨"SQSWorker", "api", "handlers/a.ts", none, [], none⟩,
                ⟨"SQSWorker", "api", "handlers/b.ts", none, [], none⟩]⟩] =
      [⟨"lambdas", "SQSProducer", "api", ["SQSWorker", "SQSWorker"],
        RelationType.sqs⟩] ∧
    ¬(["SQSWorker", "SQSWorker"] : List String).Nodup := by
  decide

/-- C5: the deduplication pass is idempotent (here even up to plain equality,
which implies equality up to set equality of targetComponents). -/
theorem C5_dedupe_idempotent (xs : List CrossRepoImpact) :
    deduplicateCrossImpacts (deduplicateCrossImpacts xs) = deduplicateCrossImpacts xs := by
  apply dedupe_of_nodup_keys
  rw [dedupe_keys]
  exact nodup_dedupStr _

/-- C6: a relation whose from or to repo name is absent from the supplied
RepoImpacts contributes zero records and is skipped silently: removing it from
the relation list leaves the analyze result unchanged. -/
theorem C6_missing_repo_skipped (repoImpacts : List RepoImpacts) (rel : RelationConfig)
    (l1 l2 : List RelationConfig)
    (h : (∀ r ∈ repoImpacts, r.name ≠ rel.fromRepo) ∨
      (∀ r ∈ repoImpacts, r.name ≠ rel.toRepo)) :
    analyzeRelation repoImpacts rel = [] ∧
    analyze (l1 ++ rel :: l2) repoImpacts = analyze (l1 ++ l2) repoImpacts := by
  have hnil : analyzeRelation repoImpacts rel = [] := by
    rcases h with h | h
    · have hf : repoImpacts.find? (fun r => r.name == rel.fromRepo) = none :=
        List.find?_eq_none.mpr fun x hx => by simpa using h x hx
      unfold analyzeRelation
      cases ht : repoImpacts.find? (fun r => r.name == rel.toRepo) <;> rw [hf]
    · have ht : repoImpacts.find? (fun r => r.name == rel.toRepo) = none :=
        List.find?_eq_none.mpr fun x hx => by simpa using h x hx
      unfold analyzeRelation
      cases hf : repoImpacts.find? (fun r => r.name == rel.fromRepo) <;> rw [ht]
  refine ⟨hnil, ?_⟩
  unfold analyze
  rw [flatMapL_append, flatMapL_append,
    show flatMapL (analyzeRelation repoImpacts) (rel :: l2) =
      analyzeRelation repoImpacts rel ++ flatMapL (analyzeRelation repoImpacts) l2
      from rfl,
    hnil, List.nil_append]

/-- C6 witness: a relation naming an absent from-repo is skipped. -/
theorem C6_missing_repo_skipped_witness :
    analyzeRelation [⟨"frontend", []⟩]
      ⟨"nonexistent", "frontend", RelationType.graphqlSchema, none⟩ = [] ∧
    analyze [⟨"nonexistent", "frontend", RelationType.graphqlSchema, none⟩]
        [⟨"frontend", []⟩] =
      analyze [] [⟨"frontend", []⟩] :=
  C6_missing_repo_skipped [⟨"frontend", []⟩]
    ⟨"nonexistent", "frontend", RelationType.graphqlSchema, none⟩ [] []
    (Or.inl (by decide))

/-- C7 counterexample: an impact whose file merely contains `package.json` as a
proper substring, with no dependency reason and no `go.mod` suffix, does
qualify as an npm-package trigger in the code, refuting the claimed exact-match
characterization. -/
theorem C7_counterexample :
    isDepImpact ⟨"Pkg", "lib", "backup/package.json.old", none, [], none⟩ = true ∧
    (("backup/package.json.old" : String) = "package.json" → False) ∧
    strEndsWith "backup/package.json.old" "go.mod" = false ∧
    List.any ([] : List Reason) (fun r => r.type == ReasonType.dependency) = false := by
  decide

/-- C7 (amended): a source impact triggers the npm-package matcher iff it has a
reason of type dependency, or its file path contains `package.json` as a
substring, or its file path ends in `go.mod`; with a nonempty target impact
list this is exactly when the matcher emits records. -/
theorem C7_npm_trigger_characterization (i : ImpactItem) (n : String)
    (t : RepoImpacts) (rel : RelationConfig) (h : t.impacts ≠ []) :
    (analyzeNpmPackageRelation ⟨n, [i]⟩ t rel ≠ [] ↔
      ((i.reasons.any fun r => r.type == ReasonType.dependency) = true ∨
        strIncludes i.file "package.json" = true ∨
        strEndsWith i.file "go.mod" = true)) := by
  by_cases hd : isDepImpact i = true
  · have hres : analyzeNpmPackageRelation ⟨n, [i]⟩ t rel ≠ [] := by
      cases himp : t.impacts with
      | nil => exact absurd himp h
      | cons a l => simp [analyzeNpmPackageRelation, List.filter, hd, himp]
    constructor
    · intro _
      simpa [isDepImpact, Bool.or_eq_true, or_assoc] using hd
    · intro _
      exact hres
  · have hres : analyzeNpmPackageRelation ⟨n, [i]⟩ t rel = [] := by
      rw [Bool.not_eq_true] at hd
      simp [analyzeNpmPackageRelation, List.filter, hd]
    rw [hres]
    simp only [ne_eq, not_true_eq_false, false_iff]
    intro hdisj
    exact hd (by simpa [isDepImpact, Bool.or_eq_true, or_assoc] using hdisj)

/-- C7 witness: with a dependency reason the matcher emits a record. -/
theorem C7_npm_trigger_characterization_witness :
    (analyzeNpmPackageRelation
        ⟨"shared-lib", [⟨"Dependencies", "shared-lib", "package.json", none,
          [⟨ReasonType.dependency, "package.json", "Dependencies changed"⟩], none⟩]⟩
        ⟨"frontend", [⟨"App", "frontend", "src/App.tsx", none,
          [⟨ReasonType.direct, "App.tsx", "Component modified"⟩], none⟩]⟩
        ⟨"shared-lib", "frontend", RelationType.npmPackage, none⟩ ≠ [] ↔
      (((⟨"Dependencies", "shared-lib", "package.json", none,
          [⟨ReasonType.dependency, "package.json", "Dependencies changed"⟩], none⟩ :
          ImpactItem).reasons.any fun r => r.type == ReasonType.dependency) = true ∨
        strIncludes "package.json" "package.json" = true ∨
        strEndsWith "package.json" "go.mod" = true)) :=
  C7_npm_trigger_characterization
    ⟨"Dependencies", "shared-lib", "package.json", none,
      [⟨ReasonType.dependency, "package.json", "Dependencies changed"⟩], none⟩
    "shared-lib"
    ⟨"frontend", [⟨"App", "frontend", "src/App.tsx", none,
      [⟨ReasonType.direct, "App.tsx", "Component modified"⟩], none⟩]⟩
    ⟨"shared-lib", "frontend", RelationType.npmPackage, none⟩ (by decide)

/-- C8: every record in the analyze output has a non-empty targetComponents
list: each matcher only emits records under a nonempty-consumer guard, and the
merge pass never empties a set. -/
theorem C8_targets_nonempty (relations : List RelationConfig)
    (repoImpacts : List RepoImpacts) :
    ∀ r ∈ analyze relations repoImpacts, r.targetComponents ≠ [] := by
  intro r hr
  unfold analyze at hr
  obtain ⟨-, -, hcomp, hfld⟩ :=
    dedupe_inv (flatMapL (analyzeRelation repoImpacts) relations)
  obtain ⟨y, hy, hk, -, -, -, -⟩ := hfld r hr
  obtain ⟨rel, hrel, hyrel⟩ := mem_flatMapL.mp hy
  obtain ⟨c, hc⟩ :=
    List.exists_mem_of_ne_nil _ (targets_ne_nil_analyzeRelation repoImpacts rel y hyrel)
  exact List.ne_nil_of_mem ((hcomp r hr c).mpr ⟨y, hy, hk, hc⟩)

/-- C8 witness: the record produced in the graphql scenario has a nonempty set. -/
theorem C8_targets_nonempty_witness :
    (⟨"api", "Query: getUsers", "frontend", ["UserList"],
        RelationType.graphqlSchema⟩ : CrossRepoImpact).targetComponents ≠ [] :=
  C8_targets_nonempty
    [⟨"api", "frontend", RelationType.graphqlSchema, none⟩]
    [⟨"api", [⟨"Query: getUsers", "api", "schema.graphql", none,
       [⟨ReasonType.schema, "schema.graphql", "GraphQL schema modified"⟩], none⟩]⟩,
     ⟨"frontend", [⟨"UserList", "frontend", "src/queries/getUsers.graphql", none,
       [⟨ReasonType.direct, "getUsers.graphql", "Query file modified"⟩], none⟩]⟩]
    _ (by decide)

/-- C9: for a relation whose via is not graphql-schema, the analyze output is
independent of that relation's patterns field. -/
theorem C9_patterns_ignored (l1 l2 : List RelationConfig) (rel : RelationConfig)
    (ps : Option (List String)) (repoImpacts : List RepoImpacts)
    (h : rel.via ≠ RelationType.graphqlSchema) :
    analyze (l1 ++ rel :: l2) repoImpacts =
      analyze (l1 ++ { rel with patterns := ps } :: l2) repoImpacts := by
  have hmid : analyzeRelation repoImpacts { rel with patterns := ps } =
      analyzeRelation repoImpacts rel := by
    obtain ⟨rfrom, rto, via, ps0⟩ := rel
    cases via
    · exact absurd rfl h
    all_goals rfl
  unfold analyze
  rw [flatMapL_append, flatMapL_append,
    show flatMapL (analyzeRelation repoImpacts) (rel :: l2) =
      analyzeRelation repoImpacts rel ++ flatMapL (analyzeRelation repoImpacts) l2
      from rfl,
    show flatMapL (analyzeRelation repoImpacts) ({ rel with patterns := ps } :: l2) =
      analyzeRelation repoImpacts { rel with patterns := ps } ++
        flatMapL (analyzeRelation repoImpacts) l2
      from rfl,
    hmid]

/-- C9 witness: changing the patterns of an sqs relation leaves the result
unchanged. -/
theorem C9_patterns_ignored_witness :
    analyze [⟨"a", "b", RelationType.sqs, none⟩] [] =
      analyze [⟨"a", "b", RelationType.sqs, some ["**/*.graphql"]⟩] [] :=
  C9_patterns_ignored [] [] ⟨"a", "b", RelationType.sqs, none⟩
    (some ["**/*.graphql"]) [] (by decide)

/-- C10: on the heap model of the deduplication pass, every input cell is
unchanged by the run (the raw records are never mutated) and every Map value is
a freshly allocated clone (its address lies beyond the initial store). -/
theorem C10_dedupe_no_input_mutation (heap0 : List CrossRepoImpact)
    (addrs : List Nat) :
    (∀ k, k < heap0.length → cellAt (dedupRun heap0 addrs).heap k = cellAt heap0 k) ∧
    (∀ o ∈ (dedupRun heap0 addrs).outAddrs, heap0.length ≤ o) := by
  have h := heapInv_foldl heap0 addrs { heap := heap0, outAddrs := [] }
    ⟨Nat.le_refl _, fun k _ => rfl, by simp⟩
  exact ⟨h.2.1, fun o ho => (h.2.2 o ho).1⟩

/-- C10 witness: a raw record merged into twice is itself unchanged. -/
theorem C10_dedupe_no_input_mutation_witness :
    cellAt (dedupRun [⟨"a", "b", "t", ["X"], RelationType.sqs⟩] [0, 0]).heap 0 =
      cellAt [⟨"a", "b", "t", ["X"], RelationType.sqs⟩] 0 :=
  (C10_dedupe_no_input_mutation [⟨"a", "b", "t", ["X"], RelationType.sqs⟩] [0, 0]).1
    0 (by decide)

end ImpactAnalyzer
